import Mathlib

/-!
Verification of `bcv_historico.py`, the BCV historical exchange-rate
consolidation tool.  The file gives a shallow embedding of the three
functions of the script — `extract_date`, `process_sheet` and
`merge_excel_files` — and proves the documented behavioural properties
about them.

Modelling decisions (all driven by the Python/pandas/openpyxl semantics
of the source):
  * a cell value (`Value`) is text, a number, the NaN marker pandas uses
    for empty cells, or the Python `None` the script writes into the
    leading output column; numbers are modelled as integers, since no
    verified property depends on numeric representation;
  * `df.iloc[r, c]` is modelled as an `Option Value`: `none` is the
    `IndexError` raised when the position is out of bounds;
  * the regex class matched by the backslash-d of the pattern is
    modelled as `Char.isDigit`;
  * a fallible computation returns `Option`: `none` models an uncaught
    exception propagating to the caller;
  * console output is modelled as a list of structured diagnostics
    (`Diag`): each record carries exactly the identifying data the
    corresponding `print` interpolates;
  * the output worksheet is modelled as the list of cell writes and the
    list of cells that received the dotted bottom border, in the order
    they are issued; fonts, alignment, merged header cells and column
    widths are static styling with no data content and are not modelled;
  * whether `wb.save` succeeds is an environment fact, passed to
    `merge_excel_files` as the boolean `saveOk`.
-/

/-- A spreadsheet cell value as the script sees it. -/
inductive Value where
  | str (s : String)
  | num (n : Int)
  | na
  | pynone
deriving DecidableEq

/-- pd.notna: false exactly on the missing-value markers NaN and None. -/
def notna : Value → Bool
  | Value.na => false
  | Value.pynone => false
  | _ => true

/-- A parsed sheet: the 2-D grid produced by read_excel(header=None). -/
abbrev Sheet := List (List Value)

/-- df.iloc[r, c]; `none` models the IndexError raised when the position
is out of bounds. -/
def iloc (df : Sheet) (r c : Nat) : Option Value :=
  df[r]?.bind fun row => row[c]?

/-- One character of the digit class of the regex. -/
def isDig (c : Char) : Bool := c.isDigit

/-- Whether a character list is exactly one match of the ten-character
pattern dd/dd/dddd used by extract_date. -/
def isDateToken : List Char → Bool
  | [d1, d2, s1, d3, d4, s2, d5, d6, d7, d8] =>
    isDig d1 && isDig d2 && s1 == '/' && isDig d3 && isDig d4 && s2 == '/' &&
      isDig d5 && isDig d6 && isDig d7 && isDig d8
  | _ => false

/-- The fixed-length pattern matches at the head of `cs`. -/
def matchHere (cs : List Char) : Bool := isDateToken (cs.take 10)

/-- re.search for the date pattern: scan the text left to right and
return the first (leftmost) match. -/
def findMatchAux : List Char → Option (List Char)
  | [] => none
  | c :: rest =>
    if matchHere (c :: rest) then some ((c :: rest).take 10) else findMatchAux rest

/-- extract_date: on text holding a dd/dd/dddd substring return that
substring, otherwise return the input unchanged (also for non-text). -/
def extract_date : Value → Value
  | Value.str s =>
    match findMatchAux s.data with
    | some m => Value.str (String.mk m)
    | none => Value.str s
  | v => v

/-- The conditional expression of lines 19-20 of the script: keep the
cell value when pd.notna holds, otherwise substitute the literal "N/A". -/
def na_subst (v : Value) : Value := if notna v then v else Value.str "N/A"

/-- One ws.cell(row=..., column=..., value=...) call. -/
structure CellWrite where
  row : Nat
  col : Nat
  value : Value
deriving DecidableEq

/-- Structured console diagnostics; each record carries the data the
corresponding print statement interpolates. -/
inductive Diag where
  | processing (file : String)
  | rowNotFound (sheet : String)
  | fileError (file : String)
  | summary (nfiles nrows : Nat)
  | fatal
deriving DecidableEq

/-- The write loop `for col_num, value in enumerate(row_data, 1)`. -/
def writeRow (cur : Nat) (row_data : List Value) : List CellWrite :=
  row_data.enum.map fun p => ⟨cur, p.1 + 1, p.2⟩

/-- The six reads df.iloc[14, 1] .. df.iloc[14, 6] of the try block, in
evaluation order; `none` models the IndexError the block catches. -/
def row14 (df : Sheet) : Option (Value × Value × Value × Value × Value × Value) :=
  (iloc df 14 1).bind fun v1 =>
  (iloc df 14 2).bind fun v2 =>
  (iloc df 14 3).bind fun v3 =>
  (iloc df 14 4).bind fun v4 =>
  (iloc df 14 5).bind fun v5 =>
  (iloc df 14 6).map fun v6 => (v1, v2, v3, v4, v5, v6)

/-- process_sheet: returns the cell writes issued, the updated row
cursor and the diagnostics printed.  The reads of cells (4,1) and (4,3)
happen before the try block, so an IndexError there propagates to the
caller (the overall `none`); an IndexError from the row-14 reads inside
the try block is caught and turned into the row-not-found branch. -/
def process_sheet (df : Sheet) (current_row : Nat) (sheet_name : String) :
    Option (List CellWrite × Nat × List Diag) :=
  (iloc df 4 1).bind fun c41 =>
  (iloc df 4 3).bind fun c43 =>
  let b5_date := extract_date (na_subst c41)
  let d5_date := extract_date (na_subst c43)
  some (match row14 df with
    | some (v1, v2, v3, v4, v5, v6) =>
      (writeRow current_row
        [Value.pynone, v1, v2, v3, v4, v5, v6, b5_date, d5_date],
       current_row + 1, ([] : List Diag))
    | none => ([], current_row, [Diag.rowNotFound sheet_name]))

/-- One input workbook: its path name, and its sheets (name and parsed
grid) in native order; `none` models pd.ExcelFile / read failure. -/
structure XFile where
  name : String
  sheets : Option (List (String × Sheet))
deriving DecidableEq

/-- The mutable state of the merge loop: the worksheet writes and
borders issued so far, the console output so far, and the row cursor. -/
structure MState where
  writes : List CellWrite
  borders : List (Nat × Nat)
  diags : List Diag
  cur : Nat
deriving DecidableEq

/-- The per-file sheet loop; the boolean records whether an exception
escaped process_sheet (aborting the remaining sheets of the file). -/
def runSheets (st : MState) : List (String × Sheet) → MState × Bool
  | [] => (st, false)
  | p :: rest =>
    match process_sheet p.2 st.cur p.1 with
    | some (w, cur2, ds) =>
      runSheets { st with writes := st.writes ++ w, diags := st.diags ++ ds, cur := cur2 } rest
    | none => (st, true)

/-- The border loop `for col in range(1, 10)` at a given row. -/
def dottedBorderCells (r : Nat) : List (Nat × Nat) :=
  (List.range 9).map fun c => (r, c + 1)

/-- One iteration of the file loop: announce the file; on open failure
or on an exception escaping a sheet, print the file-level error and
continue; otherwise, if the file is not the last, apply the dotted
border to the nine columns of the row above the cursor. -/
def processFile (st : MState) (isLast : Bool) (f : XFile) : MState :=
  let st0 : MState := { st with diags := st.diags ++ [Diag.processing f.name] }
  match f.sheets with
  | none => { st0 with diags := st0.diags ++ [Diag.fileError f.name] }
  | some ss =>
    match runSheets st0 ss with
    | (st1, true) => { st1 with diags := st1.diags ++ [Diag.fileError f.name] }
    | (st1, false) =>
      if isLast then st1
      else { st1 with borders := st1.borders ++ dottedBorderCells (st1.cur - 1) }

/-- The file loop; a file is last exactly when no files follow it. -/
def runFiles (st : MState) : List XFile → MState
  | [] => st
  | f :: rest => runFiles (processFile st rest.isEmpty f) rest

/-- The row-2 column headers of the output sheet. -/
def headers : List Value :=
  [Value.str "", Value.str "", Value.str "Moneda/País", Value.str "Compra (BID)",
   Value.str "Venta (ASK)", Value.str "Compra (BID)", Value.str "Venta (ASK)",
   Value.str "Fecha Operacion", Value.str "Fecha Valor"]

/-- The header block written before the file loop: the two merged-group
labels of row 1 and the nine column headers of row 2. -/
def headerWrites : List CellWrite :=
  [⟨1, 4, Value.str "(a) Cotización M.E./US$"⟩, ⟨1, 6, Value.str "Bs./M.E."⟩] ++
    headers.enum.map fun p => ⟨2, p.1 + 1, p.2⟩

/-- The state after header setup: cursor 3, nothing but the header
written. -/
def initState : MState := ⟨headerWrites, [], [], 3⟩

/-- The observable outcome of a run: worksheet contents, console
output, final cursor and whether the output file was saved. -/
structure MergeResult where
  writes : List CellWrite
  borders : List (Nat × Nat)
  diags : List Diag
  cur : Nat
  saved : Bool
deriving DecidableEq

/-- merge_excel_files: header setup, the file loop, then wb.save; a
failure of the save step is caught by the top-level handler, which
prints the fatal diagnostic instead of the summary. -/
def merge_excel_files (input_files : List XFile) (saveOk : Bool) : MergeResult :=
  let st := runFiles initState input_files
  if saveOk then
    ⟨st.writes, st.borders, st.diags ++ [Diag.summary input_files.length (st.cur - 3)],
     st.cur, true⟩
  else
    ⟨st.writes, st.borders, st.diags ++ [Diag.fatal], st.cur, false⟩

/-- Both date-cell reads of a sheet are in bounds, so process_sheet
cannot raise on it. -/
def dateCellsOk (df : Sheet) : Bool :=
  (iloc df 4 1).isSome && (iloc df 4 3).isSome

/-- The projector writes a row for the sheet: the date cells and the
whole of row 14 (columns 1-6) are in bounds. -/
def projectable (df : Sheet) : Bool := dateCellsOk df && (row14 df).isSome

/-- Modelled from the spec: the nine-field OutputRow of section 3 -
[blank, value(14,1) .. value(14,6), extractedDate(4,1),
extractedDate(4,3)]. -/
def specOutputRow (df : Sheet) : List Value :=
  [Value.pynone,
   (iloc df 14 1).getD Value.na, (iloc df 14 2).getD Value.na,
   (iloc df 14 3).getD Value.na, (iloc df 14 4).getD Value.na,
   (iloc df 14 5).getD Value.na, (iloc df 14 6).getD Value.na,
   extract_date (na_subst ((iloc df 4 1).getD Value.na)),
   extract_date (na_subst ((iloc df 4 3).getD Value.na))]

/-- Modelled from the spec: one OutputRow per valid sheet, at
consecutive cursor positions, in sheet order. -/
def specExpectedRows (cur : Nat) : List (String × Sheet) → List CellWrite
  | [] => []
  | p :: rest =>
    if projectable p.2 then
      writeRow cur (specOutputRow p.2) ++ specExpectedRows (cur + 1) rest
    else specExpectedRows cur rest

/-- The number of sheets of a run for which the projector writes a row. -/
def countValid (ss : List (String × Sheet)) : Nat :=
  (ss.filter fun p => projectable p.2).length

/-- The row-not-found diagnostics a list of non-raising sheets emits. -/
def sheetDiags : List (String × Sheet) → List Diag
  | [] => []
  | p :: rest =>
    (if projectable p.2 then [] else [Diag.rowNotFound p.1]) ++ sheetDiags rest

/-- All sheets of a file list, in file order then native sheet order. -/
def allSheets : List XFile → List (String × Sheet)
  | [] => []
  | f :: rest => f.sheets.getD [] ++ allSheets rest

/-- A well-formed sheet in the sense of the spec: at least 15 rows and
at least 7 columns in every row. -/
def wellFormed (df : Sheet) : Prop :=
  15 ≤ df.length ∧ ∀ row ∈ df, 7 ≤ row.length

instance (df : Sheet) : Decidable (wellFormed df) := by
  unfold wellFormed
  infer_instance

/-- A 15-by-7 sheet of empty cells, used as a concrete witness input. -/
def demoSheet : Sheet := List.replicate 15 (List.replicate 7 Value.na)

/-- A 15-row sheet that is only two columns wide: row index 14 exists
but the read of cell (4,3) raises. -/
def thinSheet : Sheet := List.replicate 15 [Value.na, Value.na]

/-- A 5-by-4 sheet: the date cells exist but row 14 does not. -/
def shortSheet : Sheet := List.replicate 5 (List.replicate 4 Value.na)

/-- The state just after announcing witness file "A". -/
def demoSt0 : MState := { initState with diags := initState.diags ++ [Diag.processing "A"] }

/-- The state after the sheets of witness file "A" are processed. -/
def demoSt1 : MState := (runSheets demoSt0 [("S", demoSheet)]).1

/-! ## Helper lemmas about the date matcher -/

theorem isDateToken_length : ∀ {m : List Char}, isDateToken m = true → m.length = 10
  | [_, _, _, _, _, _, _, _, _, _], _ => rfl
  | [], h => by simp [isDateToken] at h
  | [_], h => by simp [isDateToken] at h
  | [_, _], h => by simp [isDateToken] at h
  | [_, _, _], h => by simp [isDateToken] at h
  | [_, _, _, _], h => by simp [isDateToken] at h
  | [_, _, _, _, _], h => by simp [isDateToken] at h
  | [_, _, _, _, _, _], h => by simp [isDateToken] at h
  | [_, _, _, _, _, _, _], h => by simp [isDateToken] at h
  | [_, _, _, _, _, _, _, _], h => by simp [isDateToken] at h
  | [_, _, _, _, _, _, _, _, _], h => by simp [isDateToken] at h
  | _ :: _ :: _ :: _ :: _ :: _ :: _ :: _ :: _ :: _ :: _ :: _, h => by
      simp [isDateToken] at h

theorem findMatchAux_some :
    ∀ {cs m : List Char}, findMatchAux cs = some m →
      ∃ i, (∀ k, k < i → matchHere (cs.drop k) = false) ∧
        matchHere (cs.drop i) = true ∧ m = (cs.drop i).take 10 := by
  intro cs
  induction cs with
  | nil => intro m h; simp [findMatchAux] at h
  | cons c rest ih =>
    intro m h
    by_cases hm : matchHere (c :: rest) = true
    · refine ⟨0, by omega, hm, ?_⟩
      rw [findMatchAux, if_pos hm] at h
      exact (Option.some_inj.mp h).symm
    · rw [findMatchAux, if_neg hm] at h
      obtain ⟨i, hmin, hmatch, hm'⟩ := ih h
      refine ⟨i + 1, ?_, hmatch, hm'⟩
      intro k hk
      cases k with
      | zero => exact Bool.not_eq_true _ ▸ (by simpa using hm)
      | succ k => exact hmin k (by omega)

theorem findMatchAux_isSome :
    ∀ {cs : List Char} {i : Nat}, matchHere (cs.drop i) = true →
      ∃ m, findMatchAux cs = some m := by
  intro cs
  induction cs with
  | nil =>
    intro i h
    simp [List.drop_nil, matchHere, isDateToken] at h
  | cons c rest ih =>
    intro i h
    by_cases hm : matchHere (c :: rest) = true
    · exact ⟨_, by rw [findMatchAux, if_pos hm]⟩
    · cases i with
      | zero => exact absurd h hm
      | succ i =>
        obtain ⟨m, hm'⟩ := ih (i := i) (by simpa using h)
        exact ⟨m, by rw [findMatchAux, if_neg hm]; exact hm'⟩

theorem findMatchAux_none :
    ∀ {cs : List Char}, (∀ i, matchHere (cs.drop i) = false) →
      findMatchAux cs = none := by
  intro cs
  induction cs with
  | nil => intro _; rfl
  | cons c rest ih =>
    intro h
    rw [findMatchAux, if_neg (by simpa using h 0)]
    exact ih fun i => by simpa using h (i + 1)

theorem exists_decomp_of_matchHere {cs : List Char} {i : Nat}
    (h : matchHere (cs.drop i) = true) :
    ∃ pre post, cs = pre ++ (cs.drop i).take 10 ++ post ∧
      isDateToken ((cs.drop i).take 10) = true := by
  refine ⟨cs.take i, (cs.drop i).drop 10, ?_, h⟩
  rw [List.append_assoc, List.take_append_drop, List.take_append_drop]

theorem matchHere_of_decomp {cs pre m post : List Char}
    (hcs : cs = pre ++ m ++ post) (htok : isDateToken m = true) :
    matchHere (cs.drop pre.length) = true := by
  have hlen : m.length = 10 := isDateToken_length htok
  subst hcs
  rw [List.append_assoc, List.drop_left]
  unfold matchHere
  rw [← hlen, List.take_left]
  exact htok

/-! ## Claims about DateExtractor -/

/-- C3: for every input value, if it is a string containing a substring
matching dd/dd/dddd, extract_date returns exactly such a substring
regardless of surrounding text; otherwise — a string with no match, or
any non-string value — it returns the input unchanged (and, being a
total function of the embedding, raises no exception). -/
theorem extract_date_contract :
    (∀ s : String,
      (∃ pre m post, s.data = pre ++ m ++ post ∧ isDateToken m = true) →
      ∃ m, isDateToken m = true ∧ (∃ pre post, s.data = pre ++ m ++ post) ∧
        extract_date (Value.str s) = Value.str (String.mk m)) ∧
    (∀ s : String,
      (¬ ∃ pre m post, s.data = pre ++ m ++ post ∧ isDateToken m = true) →
      extract_date (Value.str s) = Value.str s) ∧
    (∀ v : Value, (∀ s, v ≠ Value.str s) → extract_date v = v) := by
  refine ⟨?_, ?_, ?_⟩
  · intro s ⟨pre, m, post, hdec, htok⟩
    have hmatch := matchHere_of_decomp hdec htok
    obtain ⟨m₀, hfind⟩ := findMatchAux_isSome hmatch
    obtain ⟨i₀, _, hmatch₀, hm₀⟩ := findMatchAux_some hfind
    obtain ⟨pre₀, post₀, hdec₀, htok₀⟩ := exists_decomp_of_matchHere hmatch₀
    refine ⟨m₀, hm₀ ▸ htok₀, ⟨pre₀, post₀, hm₀ ▸ hdec₀⟩, ?_⟩
    simp [extract_date, hfind]
  · intro s hno
    have hnone : findMatchAux s.data = none := by
      cases hfind : findMatchAux s.data with
      | none => rfl
      | some m =>
        obtain ⟨i, _, hmatch, hm⟩ := findMatchAux_some hfind
        obtain ⟨pre, post, hdec, htok⟩ := exists_decomp_of_matchHere hmatch
        exact absurd ⟨pre, _, post, hdec, htok⟩ hno
    simp [extract_date, hnone]
  · intro v hv
    cases v with
    | str s => exact absurd rfl (hv s)
    | num n => rfl
    | na => rfl
    | pynone => rfl

/-- Witness for C3 at concrete inputs: the date is extracted from the
sample string of the script docstring, a dateless string passes
through, and a non-string passes through. -/
theorem extract_date_contract_witness :
    (∃ m, isDateToken m = true ∧
      (∃ pre post, ("Fecha Operacion: 27/03/2024").data = pre ++ m ++ post) ∧
      extract_date (Value.str "Fecha Operacion: 27/03/2024") = Value.str (String.mk m)) ∧
    extract_date (Value.str "hola") = Value.str "hola" ∧
    extract_date (Value.num 7) = Value.num 7 := by
  refine ⟨?_, ?_, ?_⟩
  · exact extract_date_contract.1 "Fecha Operacion: 27/03/2024"
      ⟨("Fecha Operacion: ").data, ("27/03/2024").data, [], by decide, by decide⟩
  · refine extract_date_contract.2.1 "hola" ?_
    rintro ⟨pre, m, post, hdec, htok⟩
    have hlen : m.length = 10 := isDateToken_length htok
    have : ("hola").data.length = pre.length + m.length + post.length := by
      rw [hdec]; simp; omega
    simp at this
    omega
  · exact extract_date_contract.2.2 (Value.num 7) (fun s h => Value.noConfusion h)

/-- C10: when the text holds more than one match of the pattern,
extract_date returns the leftmost one: the returned token sits at a
position no later than any match position, and no earlier position
matches. -/
theorem extract_date_leftmost (s : String) (i j : Nat) (hij : i < j)
    (hi : matchHere (s.data.drop i) = true) (hj : matchHere (s.data.drop j) = true) :
    ∃ i₀, i₀ ≤ i ∧ matchHere (s.data.drop i₀) = true ∧
      (∀ k, k < i₀ → matchHere (s.data.drop k) = false) ∧
      extract_date (Value.str s) = Value.str (String.mk ((s.data.drop i₀).take 10)) := by
  obtain ⟨m, hm⟩ := findMatchAux_isSome hi
  obtain ⟨i₀, hmin, hmatch, hm'⟩ := findMatchAux_some hm
  have hle : i₀ ≤ i := by
    by_contra hlt
    rw [hmin i (by omega)] at hi
    exact Bool.noConfusion hi
  exact ⟨i₀, hle, hmatch, hmin, by simp [extract_date, hm, hm']⟩

/-- Witness for C10: a string with matches at positions 0 and 11
yields the match at position 0. -/
theorem extract_date_leftmost_witness :
    ∃ i₀, i₀ ≤ 0 ∧ matchHere (("01/02/2003 04/05/2006").data.drop i₀) = true ∧
      (∀ k, k < i₀ → matchHere (("01/02/2003 04/05/2006").data.drop k) = false) ∧
      extract_date (Value.str "01/02/2003 04/05/2006") =
        Value.str (String.mk ((("01/02/2003 04/05/2006").data.drop i₀).take 10)) :=
  extract_date_leftmost "01/02/2003 04/05/2006" 0 11 (by omega) (by decide) (by decide)

/-! ## Helper lemmas about process_sheet -/

theorem writeRow_get7 (cur : Nat) (x1 x2 x3 x4 x5 x6 x7 x8 x9 : Value) :
    (writeRow cur [x1, x2, x3, x4, x5, x6, x7, x8, x9]).get? 7 = some ⟨cur, 8, x8⟩ := rfl

theorem writeRow_get8 (cur : Nat) (x1 x2 x3 x4 x5 x6 x7 x8 x9 : Value) :
    (writeRow cur [x1, x2, x3, x4, x5, x6, x7, x8, x9]).get? 8 = some ⟨cur, 9, x9⟩ := rfl

theorem iloc_eq_some_of_wellFormed {df : Sheet} (h : wellFormed df) {r c : Nat}
    (hr : r < 15) (hc : c < 7) : ∃ v, iloc df r c = some v := by
  obtain ⟨hlen, hrow⟩ := h
  have hrlt : r < df.length := by omega
  have hmem : df.get ⟨r, hrlt⟩ ∈ df := List.get_mem df r hrlt
  have hclt : c < (df.get ⟨r, hrlt⟩).length := lt_of_lt_of_le hc (hrow _ hmem)
  refine ⟨(df.get ⟨r, hrlt⟩).get ⟨c, hclt⟩, ?_⟩
  unfold iloc
  rw [List.getElem?_eq_getElem hrlt, Option.some_bind]
  show (df.get ⟨r, hrlt⟩)[c]? = _
  rw [List.getElem?_eq_getElem hclt]
  rfl

theorem row14_eq_some {df : Sheet} {v1 v2 v3 v4 v5 v6 : Value}
    (h1 : iloc df 14 1 = some v1) (h2 : iloc df 14 2 = some v2)
    (h3 : iloc df 14 3 = some v3) (h4 : iloc df 14 4 = some v4)
    (h5 : iloc df 14 5 = some v5) (h6 : iloc df 14 6 = some v6) :
    row14 df = some (v1, v2, v3, v4, v5, v6) := by
  simp [row14, h1, h2, h3, h4, h5, h6]

theorem process_sheet_cur_step {df : Sheet} {cur : Nat} {name : String}
    {w : List CellWrite} {c : Nat} {d : List Diag}
    (h : process_sheet df cur name = some (w, c, d)) : c = cur ∨ c = cur + 1 := by
  rcases h41 : iloc df 4 1 with _ | c41
  · simp [process_sheet, h41] at h
  rcases h43 : iloc df 4 3 with _ | c43
  · simp [process_sheet, h41, h43] at h
  cases hrow : row14 df with
  | some t =>
    obtain ⟨v1, v2, v3, v4, v5, v6⟩ := t
    simp [process_sheet, h41, h43, hrow] at h
    right
    omega
  | none =>
    simp [process_sheet, h41, h43, hrow] at h
    left
    omega

/-! ## Claims about SheetRowProjector -/

/-- Counterexample to C1 as stated: the empty sheet has fewer than 15
rows, yet process_sheet does not return the cursor with a diagnostic —
the read of cell (4,1), which happens before the try block, raises an
IndexError that propagates to the caller. -/
theorem process_sheet_short_sheet_raises :
    ([] : Sheet).length < 15 ∧ process_sheet ([] : Sheet) 3 "S" = none :=
  ⟨by decide, rfl⟩

/-- C1 (amended): for every sheet whose date cells (4,1) and (4,3) are
in bounds but which has fewer than 15 rows, process_sheet writes no
cell, returns the cursor unchanged and emits the row-not-found
diagnostic carrying the sheet name. -/
theorem process_sheet_missing_row (df : Sheet) (cur : Nat) (name : String)
    (c41 c43 : Value) (h41 : iloc df 4 1 = some c41) (h43 : iloc df 4 3 = some c43)
    (hshort : df.length < 15) :
    process_sheet df cur name = some ([], cur, [Diag.rowNotFound name]) := by
  have h14 : df[14]? = none := by
    rw [List.getElem?_eq_none_iff]
    omega
  have h141 : iloc df 14 1 = none := by
    unfold iloc
    rw [h14]
    rfl
  have hrow : row14 df = none := by
    unfold row14
    rw [h141]
    rfl
  simp [process_sheet, h41, h43, hrow]

/-- Witness for the amended C1 at a concrete 5-by-4 sheet. -/
theorem process_sheet_missing_row_witness :
    iloc shortSheet 4 1 = some Value.na ∧ shortSheet.length < 15 ∧
      process_sheet shortSheet 3 "Ene" = some ([], 3, [Diag.rowNotFound "Ene"]) :=
  ⟨by decide, by decide,
    process_sheet_missing_row shortSheet 3 "Ene" Value.na Value.na
      (by decide) (by decide) (by decide)⟩

/-- C4: for every well-formed sheet (at least 15 rows and 7 columns),
process_sheet succeeds and writes, at the cursor row, exactly the
nine-field OutputRow of the spec — blank, then the row-14 cells of
columns 1 to 6 verbatim, then the two extracted dates — advancing the
cursor by one and emitting no diagnostic. -/
theorem process_sheet_wellFormed_row (df : Sheet) (cur : Nat) (name : String)
    (h : wellFormed df) :
    process_sheet df cur name = some (writeRow cur (specOutputRow df), cur + 1, []) := by
  obtain ⟨b, hb⟩ := iloc_eq_some_of_wellFormed h (by omega) (by omega) (r := 4) (c := 1)
  obtain ⟨e, he⟩ := iloc_eq_some_of_wellFormed h (by omega) (by omega) (r := 4) (c := 3)
  obtain ⟨v1, h1⟩ := iloc_eq_some_of_wellFormed h (by omega) (by omega) (r := 14) (c := 1)
  obtain ⟨v2, h2⟩ := iloc_eq_some_of_wellFormed h (by omega) (by omega) (r := 14) (c := 2)
  obtain ⟨v3, h3⟩ := iloc_eq_some_of_wellFormed h (by omega) (by omega) (r := 14) (c := 3)
  obtain ⟨v4, h4⟩ := iloc_eq_some_of_wellFormed h (by omega) (by omega) (r := 14) (c := 4)
  obtain ⟨v5, h5⟩ := iloc_eq_some_of_wellFormed h (by omega) (by omega) (r := 14) (c := 5)
  obtain ⟨v6, h6⟩ := iloc_eq_some_of_wellFormed h (by omega) (by omega) (r := 14) (c := 6)
  have hrow := row14_eq_some h1 h2 h3 h4 h5 h6
  simp [process_sheet, hb, he, hrow, specOutputRow, h1, h2, h3, h4, h5, h6]

/-- Witness for C4 at a concrete 15-by-7 sheet. -/
theorem process_sheet_wellFormed_row_witness :
    wellFormed demoSheet ∧
      process_sheet demoSheet 3 "Feb" =
        some (writeRow 3 (specOutputRow demoSheet), 4, []) :=
  ⟨by decide, process_sheet_wellFormed_row demoSheet 3 "Feb" (by decide)⟩

/-- C8: when the date cells are in bounds, process_sheet raises no
exception, and whenever the cell (4,1) — respectively (4,3) — is an
empty (NaN or None) cell and a row is written, the output field 8 —
respectively 9 — holds the literal placeholder "N/A". -/
theorem date_cells_na_substitution (df : Sheet) (cur : Nat) (name : String)
    (c41 c43 : Value) (h41 : iloc df 4 1 = some c41) (h43 : iloc df 4 3 = some c43) :
    (∃ out, process_sheet df cur name = some out) ∧
    (∀ w c d, process_sheet df cur name = some (w, c, d) → w ≠ [] →
      (notna c41 = false → w.get? 7 = some ⟨cur, 8, Value.str "N/A"⟩) ∧
      (notna c43 = false → w.get? 8 = some ⟨cur, 9, Value.str "N/A"⟩)) := by
  have hNA : extract_date (Value.str "N/A") = Value.str "N/A" := by decide
  cases hrow : row14 df with
  | none =>
    have heq : process_sheet df cur name = some ([], cur, [Diag.rowNotFound name]) := by
      simp [process_sheet, h41, h43, hrow]
    refine ⟨⟨_, heq⟩, ?_⟩
    intro w c d hps hw
    rw [heq] at hps
    have := Option.some_inj.mp hps
    simp [Prod.ext_iff] at this
    exact absurd this.1 hw
  | some t =>
    obtain ⟨v1, v2, v3, v4, v5, v6⟩ := t
    have heq : process_sheet df cur name =
        some (writeRow cur [Value.pynone, v1, v2, v3, v4, v5, v6,
          extract_date (na_subst c41), extract_date (na_subst c43)], cur + 1, []) := by
      simp [process_sheet, h41, h43, hrow]
    refine ⟨⟨_, heq⟩, ?_⟩
    intro w c d hps hw
    rw [heq] at hps
    have hinj := Option.some_inj.mp hps
    simp [Prod.ext_iff] at hinj
    obtain ⟨hw', hc', hd'⟩ := hinj
    subst hw'
    constructor
    · intro hna
      rw [writeRow_get7]
      simp [na_subst, hna, hNA]
    · intro hna
      rw [writeRow_get8]
      simp [na_subst, hna, hNA]

/-- Witness for C8 at a concrete sheet whose date cells are both NaN. -/
theorem date_cells_na_substitution_witness :
    (∃ out, process_sheet demoSheet 3 "Mar" = some out) ∧
    ((writeRow 3 (specOutputRow demoSheet)).get? 7 = some ⟨3, 8, Value.str "N/A"⟩ ∧
     (writeRow 3 (specOutputRow demoSheet)).get? 8 = some ⟨3, 9, Value.str "N/A"⟩) := by
  have h := date_cells_na_substitution demoSheet 3 "Mar" Value.na Value.na
    (by decide) (by decide)
  refine ⟨h.1, ?_, ?_⟩
  · exact (h.2 (writeRow 3 (specOutputRow demoSheet)) 4 [] (by decide) (by decide)).1 rfl
  · exact (h.2 (writeRow 3 (specOutputRow demoSheet)) 4 [] (by decide) (by decide)).2 rfl

/-! ## Helper lemmas about the merge loop -/

theorem process_sheet_cur_le {df : Sheet} {cur : Nat} {name : String}
    {w : List CellWrite} {c : Nat} {d : List Diag}
    (h : process_sheet df cur name = some (w, c, d)) : cur ≤ c := by
  rcases process_sheet_cur_step h with h' | h' <;> omega

theorem runSheets_cur_le (ss : List (String × Sheet)) :
    ∀ st : MState, st.cur ≤ (runSheets st ss).1.cur := by
  induction ss with
  | nil => intro st; exact le_refl _
  | cons p rest ih =>
    intro st
    unfold runSheets
    cases hps : process_sheet p.2 st.cur p.1 with
    | some t =>
      obtain ⟨wr, cur2, ds⟩ := t
      have h1 : st.cur ≤ cur2 := process_sheet_cur_le hps
      have h2 := ih { st with writes := st.writes ++ wr, diags := st.diags ++ ds, cur := cur2 }
      exact le_trans h1 h2
    | none => exact le_refl _

theorem processFile_cur_le (f : XFile) (isL : Bool) (st : MState) :
    st.cur ≤ (processFile st isL f).cur := by
  cases hf : f.sheets with
  | none => simp [processFile, hf]
  | some ss =>
    have h := runSheets_cur_le ss { st with diags := st.diags ++ [Diag.processing f.name] }
    cases hrs : runSheets { st with diags := st.diags ++ [Diag.processing f.name] } ss with
    | mk st1 flag =>
      rw [hrs] at h
      cases flag with
      | true => simpa [processFile, hf, hrs] using h
      | false =>
        cases isL with
        | true => simpa [processFile, hf, hrs] using h
        | false => simpa [processFile, hf, hrs] using h

theorem runFiles_cur_le (fs : List XFile) :
    ∀ st : MState, st.cur ≤ (runFiles st fs).cur := by
  induction fs with
  | nil => intro st; exact le_refl _
  | cons f rest ih =>
    intro st
    exact le_trans (processFile_cur_le f rest.isEmpty st) (ih _)

theorem process_sheet_no_fatal {df : Sheet} {cur : Nat} {name : String}
    {w : List CellWrite} {c : Nat} {d : List Diag}
    (h : process_sheet df cur name = some (w, c, d)) : Diag.fatal ∉ d := by
  rcases h41 : iloc df 4 1 with _ | c41
  · simp [process_sheet, h41] at h
  rcases h43 : iloc df 4 3 with _ | c43
  · simp [process_sheet, h41, h43] at h
  cases hrow : row14 df with
  | some t =>
    obtain ⟨v1, v2, v3, v4, v5, v6⟩ := t
    have heq : process_sheet df cur name =
        some (writeRow cur [Value.pynone, v1, v2, v3, v4, v5, v6,
          extract_date (na_subst c41), extract_date (na_subst c43)], cur + 1, []) := by
      simp [process_sheet, h41, h43, hrow]
    rw [heq] at h
    have hinj := Option.some_inj.mp h
    simp [Prod.ext_iff] at hinj
    obtain ⟨-, -, hd⟩ := hinj
    subst hd
    simp
  | none =>
    have heq : process_sheet df cur name = some ([], cur, [Diag.rowNotFound name]) := by
      simp [process_sheet, h41, h43, hrow]
    rw [heq] at h
    have hinj := Option.some_inj.mp h
    simp [Prod.ext_iff] at hinj
    obtain ⟨-, -, hd⟩ := hinj
    subst hd
    simp

theorem runSheets_no_fatal (ss : List (String × Sheet)) :
    ∀ st : MState, Diag.fatal ∉ st.diags → Diag.fatal ∉ (runSheets st ss).1.diags := by
  induction ss with
  | nil => intro st h; exact h
  | cons p rest ih =>
    intro st h
    unfold runSheets
    cases hps : process_sheet p.2 st.cur p.1 with
    | some t =>
      obtain ⟨wr, cur2, ds⟩ := t
      refine ih _ ?_
      simp only [List.mem_append]
      rintro (hmem | hmem)
      · exact h hmem
      · exact process_sheet_no_fatal hps hmem
    | none => exact h

theorem processFile_no_fatal (f : XFile) (isL : Bool) (st : MState)
    (h : Diag.fatal ∉ st.diags) : Diag.fatal ∉ (processFile st isL f).diags := by
  cases hf : f.sheets with
  | none => simpa [processFile, hf] using h
  | some ss =>
    have h1 := runSheets_no_fatal ss
      { st with diags := st.diags ++ [Diag.processing f.name] } (by simp [h])
    cases hrs : runSheets { st with diags := st.diags ++ [Diag.processing f.name] } ss with
    | mk st1 flag =>
      rw [hrs] at h1
      cases flag with
      | true => simpa [processFile, hf, hrs] using h1
      | false =>
        cases isL with
        | true => simpa [processFile, hf, hrs] using h1
        | false => simpa [processFile, hf, hrs] using h1

theorem runFiles_no_fatal (fs : List XFile) :
    ∀ st : MState, Diag.fatal ∉ st.diags → Diag.fatal ∉ (runFiles st fs).diags := by
  induction fs with
  | nil => intro st h; exact h
  | cons f rest ih =>
    intro st h
    exact ih _ (processFile_no_fatal f rest.isEmpty st h)

/-! ## Claims about the cursor, the top-level handler and the borders -/

/-- C9: process_sheet returns either the input cursor or the input
cursor plus one whenever it returns at all, the file loop only moves
the cursor through those return values, so over any run the cursor is
monotone: it never drops below its starting value 3. -/
theorem cursor_monotone :
    (∀ (df : Sheet) (cur : Nat) (name : String) (w : List CellWrite) (c : Nat)
        (d : List Diag), process_sheet df cur name = some (w, c, d) →
        c = cur ∨ c = cur + 1) ∧
    (∀ (st : MState) (fs : List XFile), st.cur ≤ (runFiles st fs).cur) ∧
    (∀ (fs : List XFile) (saveOk : Bool), 3 ≤ (merge_excel_files fs saveOk).cur) := by
  refine ⟨fun df cur name w c d h => process_sheet_cur_step h,
    fun st fs => runFiles_cur_le fs st, fun fs saveOk => ?_⟩
  have h := runFiles_cur_le fs initState
  unfold merge_excel_files
  cases saveOk with
  | true => simpa using h
  | false => simpa using h

/-- Witness for C9: a concrete projector call advancing the cursor from
3 to 4, and the empty run keeping the cursor at 3. -/
theorem cursor_monotone_witness :
    (4 = 3 ∨ 4 = 3 + 1) ∧ initState.cur ≤ (runFiles initState []).cur :=
  ⟨cursor_monotone.1 demoSheet 3 "Abr" (writeRow 3 (specOutputRow demoSheet)) 4 []
      (by decide),
   cursor_monotone.2.1 initState []⟩

/-- C7: merge_excel_files is a total function of the embedding — no
error escapes it.  When the save step succeeds the run completes with
the output saved and no fatal diagnostic; when the save step fails the
top-level handler reports the fatal diagnostic and the run still
returns normally, with the output unsaved. -/
theorem merge_never_raises (fs : List XFile) :
    ((merge_excel_files fs true).saved = true ∧
      Diag.fatal ∉ (merge_excel_files fs true).diags) ∧
    ((merge_excel_files fs false).saved = false ∧
      Diag.fatal ∈ (merge_excel_files fs false).diags) := by
  have hnf : Diag.fatal ∉ (runFiles initState fs).diags :=
    runFiles_no_fatal fs initState (by simp [initState])
  refine ⟨⟨rfl, ?_⟩, ⟨rfl, ?_⟩⟩
  · have hdiags : (merge_excel_files fs true).diags =
        (runFiles initState fs).diags ++
          [Diag.summary fs.length ((runFiles initState fs).cur - 3)] := rfl
    rw [hdiags]
    simp [List.mem_append, hnf]
  · have hdiags : (merge_excel_files fs false).diags =
        (runFiles initState fs).diags ++ [Diag.fatal] := rfl
    rw [hdiags]
    simp [List.mem_append]

/-- Witness for C7 at the empty file list. -/
theorem merge_never_raises_witness :
    (merge_excel_files [] true).saved = true ∧
      Diag.fatal ∈ (merge_excel_files [] false).diags :=
  ⟨(merge_never_raises []).1.1, (merge_never_raises []).2.2⟩

/-- Counterexample to C2 as stated: in a two-file run whose first file
fails to open, no border is applied at all — in particular not to the
header row — although the failed file is not the last one.  The border
application sits inside the per-file try block and is skipped when the
open raises. -/
theorem no_border_after_failed_file :
    (merge_excel_files [⟨"B", none⟩, ⟨"C", some []⟩] true).borders = [] ∧
      Diag.fileError "B" ∈ (merge_excel_files [⟨"B", none⟩, ⟨"C", some []⟩] true).diags := by
  decide

/-- C2 (amended): for a non-last file whose open succeeded and whose
sheet loop ran to completion without a propagated exception, the dotted
bottom border is applied to all nine columns of the row immediately
above the cursor left by the file's sheets. -/
theorem border_after_completed_file (st st1 : MState) (f : XFile)
    (ss : List (String × Sheet)) (hf : f.sheets = some ss)
    (hrun : runSheets { st with diags := st.diags ++ [Diag.processing f.name] } ss
      = (st1, false)) :
    processFile st false f =
      { st1 with borders := st1.borders ++ dottedBorderCells (st1.cur - 1) } ∧
    (dottedBorderCells (st1.cur - 1)).length = 9 := by
  constructor
  · simp [processFile, hf, hrun]
  · simp [dottedBorderCells]

/-- Witness for the amended C2: one completed non-last file receives
the nine border cells at the row above its final cursor. -/
theorem border_after_completed_file_witness :
    processFile initState false ⟨"A", some [("S", demoSheet)]⟩ =
      { demoSt1 with borders := demoSt1.borders ++ dottedBorderCells (demoSt1.cur - 1) } ∧
    (dottedBorderCells (demoSt1.cur - 1)).length = 9 :=
  border_after_completed_file initState demoSt1 ⟨"A", some [("S", demoSheet)]⟩
    [("S", demoSheet)] rfl (by decide)

/-! ## Characterization of a run in which no sheet raises -/

theorem row14_components {df : Sheet} {v1 v2 v3 v4 v5 v6 : Value}
    (h : row14 df = some (v1, v2, v3, v4, v5, v6)) :
    iloc df 14 1 = some v1 ∧ iloc df 14 2 = some v2 ∧ iloc df 14 3 = some v3 ∧
    iloc df 14 4 = some v4 ∧ iloc df 14 5 = some v5 ∧ iloc df 14 6 = some v6 := by
  unfold row14 at h
  rcases h1 : iloc df 14 1 with _ | x1 <;> rw [h1] at h
  · simp at h
  simp only [Option.some_bind] at h
  rcases h2 : iloc df 14 2 with _ | x2 <;> rw [h2] at h
  · simp at h
  simp only [Option.some_bind] at h
  rcases h3 : iloc df 14 3 with _ | x3 <;> rw [h3] at h
  · simp at h
  simp only [Option.some_bind] at h
  rcases h4 : iloc df 14 4 with _ | x4 <;> rw [h4] at h
  · simp at h
  simp only [Option.some_bind] at h
  rcases h5 : iloc df 14 5 with _ | x5 <;> rw [h5] at h
  · simp at h
  simp only [Option.some_bind] at h
  rcases h6 : iloc df 14 6 with _ | x6 <;> rw [h6] at h
  · simp at h
  simp only [Option.map_some'] at h
  have hx := Option.some_inj.mp h
  simp only [Prod.ext_iff] at hx
  obtain ⟨e1, e2, e3, e4, e5, e6⟩ := hx
  subst e1; subst e2; subst e3; subst e4; subst e5; subst e6
  exact ⟨rfl, rfl, rfl, rfl, rfl, rfl⟩

theorem countValid_cons (p : String × Sheet) (rest : List (String × Sheet)) :
    countValid (p :: rest) = (if projectable p.2 then 1 else 0) + countValid rest := by
  simp only [countValid, List.filter_cons]
  split
  · simp [Nat.add_comm]
  · simp

theorem countValid_append (xs ys : List (String × Sheet)) :
    countValid (xs ++ ys) = countValid xs + countValid ys := by
  simp [countValid, List.filter_append]

theorem specExpectedRows_append (xs ys : List (String × Sheet)) :
    ∀ cur, specExpectedRows cur (xs ++ ys) =
      specExpectedRows cur xs ++ specExpectedRows (cur + countValid xs) ys := by
  induction xs with
  | nil => intro cur; simp [specExpectedRows, countValid]
  | cons p rest ih =>
    intro cur
    cases hp : projectable p.2 with
    | true =>
      have harith : cur + countValid (p :: rest) = cur + 1 + countValid rest := by
        rw [countValid_cons, hp]
        simp
        omega
      simp only [List.cons_append, specExpectedRows, hp, if_true, List.append_eq,
        ih (cur + 1), List.append_assoc, harith]
    | false =>
      have harith : cur + countValid (p :: rest) = cur + countValid rest := by
        rw [countValid_cons, hp]
        simp
      simp [specExpectedRows, hp, ih cur, harith]

theorem runSheets_ok (ss : List (String × Sheet)) :
    ∀ st : MState, (∀ p ∈ ss, dateCellsOk p.2 = true) →
      runSheets st ss =
        ({ writes := st.writes ++ specExpectedRows st.cur ss,
           borders := st.borders,
           diags := st.diags ++ sheetDiags ss,
           cur := st.cur + countValid ss }, false) := by
  induction ss with
  | nil =>
    intro st _
    simp [runSheets, specExpectedRows, sheetDiags, countValid]
  | cons p rest ih =>
    intro st hd
    have hdp : dateCellsOk p.2 = true := hd p (List.mem_cons_self p rest)
    have hdr : ∀ q ∈ rest, dateCellsOk q.2 = true :=
      fun q hq => hd q (List.mem_cons_of_mem p hq)
    obtain ⟨c41, h41⟩ : ∃ v, iloc p.2 4 1 = some v := by
      rcases hx : iloc p.2 4 1 with _ | v
      · simp [dateCellsOk, hx] at hdp
      · exact ⟨v, rfl⟩
    obtain ⟨c43, h43⟩ : ∃ v, iloc p.2 4 3 = some v := by
      rcases hx : iloc p.2 4 3 with _ | v
      · simp [dateCellsOk, hx] at hdp
      · exact ⟨v, rfl⟩
    cases hrow : row14 p.2 with
    | some t =>
      obtain ⟨v1, v2, v3, v4, v5, v6⟩ := t
      obtain ⟨e1, e2, e3, e4, e5, e6⟩ := row14_components hrow
      have hproj : projectable p.2 = true := by
        simp [projectable, dateCellsOk, h41, h43, hrow]
      have hps : process_sheet p.2 st.cur p.1 =
          some (writeRow st.cur (specOutputRow p.2), st.cur + 1, []) := by
        simp [process_sheet, h41, h43, hrow, specOutputRow, e1, e2, e3, e4, e5, e6]
      simp only [runSheets, hps]
      rw [ih _ hdr]
      simp [specExpectedRows, hproj, sheetDiags, countValid_cons, List.append_assoc,
        Prod.mk.injEq, MState.mk.injEq] <;> omega
    | none =>
      have hproj : projectable p.2 = false := by simp [projectable, hrow]
      have hps : process_sheet p.2 st.cur p.1 =
          some ([], st.cur, [Diag.rowNotFound p.1]) := by
        simp [process_sheet, h41, h43, hrow]
      simp only [runSheets, hps]
      rw [ih _ hdr]
      simp [specExpectedRows, hproj, sheetDiags, countValid_cons, List.append_assoc,
        Prod.mk.injEq, MState.mk.injEq] <;> omega

theorem runFiles_ok (fs : List XFile) :
    ∀ st : MState,
      (∀ f ∈ fs, f.sheets.isSome = true ∧
        ∀ p ∈ f.sheets.getD [], dateCellsOk p.2 = true) →
      (runFiles st fs).writes = st.writes ++ specExpectedRows st.cur (allSheets fs) ∧
      (runFiles st fs).cur = st.cur + countValid (allSheets fs) := by
  induction fs with
  | nil => intro st _; simp [runFiles, allSheets, specExpectedRows, countValid]
  | cons f rest ih =>
    intro st h
    obtain ⟨hsome, hdc⟩ := h f (List.mem_cons_self f rest)
    obtain ⟨ss, hss⟩ := Option.isSome_iff_exists.mp hsome
    have hdc' : ∀ p ∈ ss, dateCellsOk p.2 = true := by
      intro p hp
      exact hdc p (by simp [hss, hp])
    have hrest : ∀ g ∈ rest, g.sheets.isSome = true ∧
        ∀ p ∈ g.sheets.getD [], dateCellsOk p.2 = true :=
      fun g hg => h g (List.mem_cons_of_mem f hg)
    have hrs := runSheets_ok ss { st with diags := st.diags ++ [Diag.processing f.name] } hdc'
    have hpf : (processFile st rest.isEmpty f).writes =
          st.writes ++ specExpectedRows st.cur ss ∧
        (processFile st rest.isEmpty f).cur = st.cur + countValid ss := by
      cases hE : rest.isEmpty <;> simp [processFile, hss, hrs]
    obtain ⟨hw1, hc1⟩ := hpf
    obtain ⟨hw2, hc2⟩ := ih (processFile st rest.isEmpty f) hrest
    have hall : allSheets (f :: rest) = ss ++ allSheets rest := by simp [allSheets, hss]
    constructor
    · show (runFiles (processFile st rest.isEmpty f) rest).writes = _
      rw [hw2, hw1, hc1, hall, specExpectedRows_append, List.append_assoc]
    · show (runFiles (processFile st rest.isEmpty f) rest).cur = _
      rw [hc2, hc1, hall, countValid_append]
      omega

/-! ## Claims about row count and ordering -/

/-- Counterexample to C5 as stated: a run over one file with one
15-row, 2-column sheet.  The sheet has a data row (row index 14), so
the claim counts M = 1, yet the run writes no data row at all — the
read of date cell (4,3) is out of bounds, the IndexError aborts the
file, and the cursor never moves. -/
theorem merge_row_count_cex :
    (thinSheet[14]?).isSome = true ∧
      (merge_excel_files [⟨"A", some [("S", thinSheet)]⟩] true).cur = 3 ∧
      (merge_excel_files [⟨"A", some [("S", thinSheet)]⟩] true).writes = headerWrites := by
  decide

/-- C5 (amended): for every run in which every file opens and every
sheet's date cells (4,1) and (4,3) are in bounds — so no sheet aborts
its file — the output sheet holds exactly one data row per projectable
sheet (row 14 with columns 1-6 in bounds), written right after the
header block at consecutive cursor positions starting at row 3, in
file order then native sheet order, and the final cursor is 3 plus the
number of projectable sheets. -/
theorem merge_row_count_and_order (fs : List XFile)
    (h : ∀ f ∈ fs, f.sheets.isSome = true ∧
      ∀ p ∈ f.sheets.getD [], dateCellsOk p.2 = true) :
    (merge_excel_files fs true).writes =
      headerWrites ++ specExpectedRows 3 (allSheets fs) ∧
    (merge_excel_files fs true).cur = 3 + countValid (allSheets fs) := by
  have hok := runFiles_ok fs initState h
  exact ⟨hok.1, hok.2⟩

/-- Witness for the amended C5: one file with one valid sheet yields
exactly one data row at cursor 3 and final cursor 4. -/
theorem merge_row_count_and_order_witness :
    (merge_excel_files [⟨"A", some [("S", demoSheet)]⟩] true).writes =
      headerWrites ++ specExpectedRows 3 (allSheets [⟨"A", some [("S", demoSheet)]⟩]) ∧
    (merge_excel_files [⟨"A", some [("S", demoSheet)]⟩] true).cur =
      3 + countValid (allSheets [⟨"A", some [("S", demoSheet)]⟩]) :=
  merge_row_count_and_order [⟨"A", some [("S", demoSheet)]⟩] (by decide)

/-! ## Frame lemmas: prefixes of the worksheet and console are inert -/

theorem runSheets_shift (ss : List (String × Sheet)) :
    ∀ (st : MState) (w : List CellWrite) (b : List (Nat × Nat)) (d : List Diag),
      runSheets ⟨w ++ st.writes, b ++ st.borders, d ++ st.diags, st.cur⟩ ss =
        (⟨w ++ (runSheets st ss).1.writes, b ++ (runSheets st ss).1.borders,
          d ++ (runSheets st ss).1.diags, (runSheets st ss).1.cur⟩,
         (runSheets st ss).2) := by
  induction ss with
  | nil => intro st w b d; rfl
  | cons p rest ih =>
    intro st w b d
    cases hps : process_sheet p.2 st.cur p.1 with
    | some t =>
      obtain ⟨wr, cur2, ds⟩ := t
      have lhs_eq : runSheets ⟨w ++ st.writes, b ++ st.borders, d ++ st.diags, st.cur⟩
          (p :: rest) =
          runSheets ⟨(w ++ st.writes) ++ wr, b ++ st.borders, (d ++ st.diags) ++ ds, cur2⟩
            rest := by
        simp [runSheets, hps]
      have rhs_eq : runSheets st (p :: rest) =
          runSheets
            { st with writes := st.writes ++ wr, diags := st.diags ++ ds, cur := cur2 }
            rest := by
        simp [runSheets, hps]
      rw [lhs_eq, rhs_eq]
      have hih := ih
        { st with writes := st.writes ++ wr, diags := st.diags ++ ds, cur := cur2 }
        w b d
      simpa [List.append_assoc] using hih
    | none => simp [runSheets, hps]

theorem processFile_shift (f : XFile) (isL : Bool) (st : MState)
    (w : List CellWrite) (b : List (Nat × Nat)) (d : List Diag) :
    processFile ⟨w ++ st.writes, b ++ st.borders, d ++ st.diags, st.cur⟩ isL f =
      ⟨w ++ (processFile st isL f).writes, b ++ (processFile st isL f).borders,
       d ++ (processFile st isL f).diags, (processFile st isL f).cur⟩ := by
  cases hf : f.sheets with
  | none => simp [processFile, hf, List.append_assoc]
  | some ss =>
    have hsh := runSheets_shift ss { st with diags := st.diags ++ [Diag.processing f.name] }
      w b d
    cases hrs : runSheets { st with diags := st.diags ++ [Diag.processing f.name] } ss with
    | mk st1 flag =>
      rw [hrs] at hsh
      simp only [List.append_assoc] at hsh
      cases flag with
      | true => simp [processFile, hf, hrs, hsh, List.append_assoc]
      | false =>
        cases isL with
        | true => simp [processFile, hf, hrs, hsh, List.append_assoc]
        | false => simp [processFile, hf, hrs, hsh, List.append_assoc]

theorem runFiles_shift (fs : List XFile) :
    ∀ (st : MState) (w : List CellWrite) (b : List (Nat × Nat)) (d : List Diag),
      runFiles ⟨w ++ st.writes, b ++ st.borders, d ++ st.diags, st.cur⟩ fs =
        ⟨w ++ (runFiles st fs).writes, b ++ (runFiles st fs).borders,
         d ++ (runFiles st fs).diags, (runFiles st fs).cur⟩ := by
  induction fs with
  | nil => intro st w b d; rfl
  | cons f rest ih =>
    intro st w b d
    show runFiles
      (processFile ⟨w ++ st.writes, b ++ st.borders, d ++ st.diags, st.cur⟩ rest.isEmpty f)
      rest = _
    rw [processFile_shift]
    exact ih (processFile st rest.isEmpty f) w b d

theorem runFiles_norm (fs : List XFile) (σ : MState) :
    runFiles σ fs =
      ⟨σ.writes ++ (runFiles ⟨[], [], [], σ.cur⟩ fs).writes,
       σ.borders ++ (runFiles ⟨[], [], [], σ.cur⟩ fs).borders,
       σ.diags ++ (runFiles ⟨[], [], [], σ.cur⟩ fs).diags,
       (runFiles ⟨[], [], [], σ.cur⟩ fs).cur⟩ := by
  have h := runFiles_shift fs ⟨[], [], [], σ.cur⟩ σ.writes σ.borders σ.diags
  simpa using h

theorem processFile_isLast_inv (f : XFile) (st : MState) (b1 b2 : Bool) :
    (processFile st b1 f).writes = (processFile st b2 f).writes ∧
    (processFile st b1 f).diags = (processFile st b2 f).diags ∧
    (processFile st b1 f).cur = (processFile st b2 f).cur := by
  cases hf : f.sheets with
  | none => simp [processFile, hf]
  | some ss =>
    cases hrs : runSheets { st with diags := st.diags ++ [Diag.processing f.name] } ss with
    | mk st1 flag =>
      cases flag <;> cases b1 <;> cases b2 <;> simp [processFile, hf, hrs]

theorem runFiles_skip_failed (B : XFile) (hB : B.sheets = none) (C : List XFile) :
    ∀ (A : List XFile) (st : MState),
      (runFiles st (A ++ B :: C)).writes = (runFiles st (A ++ C)).writes ∧
      (runFiles st (A ++ B :: C)).cur = (runFiles st (A ++ C)).cur ∧
      Diag.fileError B.name ∈ (runFiles st (A ++ B :: C)).diags := by
  intro A
  induction A with
  | nil =>
    intro st
    have hpB : processFile st C.isEmpty B =
        { st with diags :=
            st.diags ++ [Diag.processing B.name] ++ [Diag.fileError B.name] } := by
      simp [processFile, hB]
    have hL : runFiles st (([] : List XFile) ++ B :: C) =
        runFiles { st with diags :=
          st.diags ++ [Diag.processing B.name] ++ [Diag.fileError B.name] } C := by
      show runFiles (processFile st C.isEmpty B) C = _
      rw [hpB]
    rw [hL]
    rw [runFiles_norm C { st with diags :=
      st.diags ++ [Diag.processing B.name] ++ [Diag.fileError B.name] }]
    rw [show (([] : List XFile) ++ C) = C from rfl, runFiles_norm C st]
    refine ⟨rfl, rfl, ?_⟩
    simp

  | cons f A' ih =>
    intro st
    have hinv := processFile_isLast_inv f st (A' ++ B :: C).isEmpty (A' ++ C).isEmpty
    obtain ⟨hw, hd, hc⟩ := hinv
    have h1 := ih (processFile st (A' ++ B :: C).isEmpty f)
    have e1 : (runFiles (processFile st (A' ++ B :: C).isEmpty f) (A' ++ C)).writes =
        (runFiles (processFile st (A' ++ C).isEmpty f) (A' ++ C)).writes := by
      rw [runFiles_norm (A' ++ C) (processFile st (A' ++ B :: C).isEmpty f),
        runFiles_norm (A' ++ C) (processFile st (A' ++ C).isEmpty f)]
      simp [hw, hc]
    have e2 : (runFiles (processFile st (A' ++ B :: C).isEmpty f) (A' ++ C)).cur =
        (runFiles (processFile st (A' ++ C).isEmpty f) (A' ++ C)).cur := by
      rw [runFiles_norm (A' ++ C) (processFile st (A' ++ B :: C).isEmpty f),
        runFiles_norm (A' ++ C) (processFile st (A' ++ C).isEmpty f)]
      simp [hc]
    exact ⟨h1.1.trans e1, h1.2.1.trans e2, h1.2.2⟩

/-! ## Claim about skipping a failed file -/

/-- C6: when one input file fails to open, the run emits the
file-level diagnostic naming it and carries on: the worksheet cell
writes and the final cursor (hence the reported row count) are exactly
those of the same run without the failed file, so the rows of all
other files stay in place. -/
theorem merge_skips_failed_file (A C : List XFile) (B : XFile) (saveOk : Bool)
    (hB : B.sheets = none) :
    (merge_excel_files (A ++ B :: C) saveOk).writes =
      (merge_excel_files (A ++ C) saveOk).writes ∧
    (merge_excel_files (A ++ B :: C) saveOk).cur =
      (merge_excel_files (A ++ C) saveOk).cur ∧
    Diag.fileError B.name ∈ (merge_excel_files (A ++ B :: C) saveOk).diags := by
  obtain ⟨hw, hc, hm⟩ := runFiles_skip_failed B hB C A initState
  cases saveOk with
  | true =>
    refine ⟨hw, hc, ?_⟩
    have hdiags : (merge_excel_files (A ++ B :: C) true).diags =
        (runFiles initState (A ++ B :: C)).diags ++
          [Diag.summary (A ++ B :: C).length
            ((runFiles initState (A ++ B :: C)).cur - 3)] := rfl
    rw [hdiags]
    exact List.mem_append_left _ hm
  | false =>
    refine ⟨hw, hc, ?_⟩
    have hdiags : (merge_excel_files (A ++ B :: C) false).diags =
        (runFiles initState (A ++ B :: C)).diags ++ [Diag.fatal] := rfl
    rw [hdiags]
    exact List.mem_append_left _ hm

/-- Witness for C6: dropping an unopenable file "B" from a two-file
run leaves the worksheet and cursor of the run over "C" alone, and the
diagnostic names "B". -/
theorem merge_skips_failed_file_witness :
    (merge_excel_files ([] ++ (⟨"B", none⟩ : XFile) :: [⟨"C", some []⟩]) true).writes =
      (merge_excel_files ([] ++ [(⟨"C", some []⟩ : XFile)]) true).writes ∧
    (merge_excel_files ([] ++ (⟨"B", none⟩ : XFile) :: [⟨"C", some []⟩]) true).cur =
      (merge_excel_files ([] ++ [(⟨"C", some []⟩ : XFile)]) true).cur ∧
    Diag.fileError "B" ∈
      (merge_excel_files ([] ++ (⟨"B", none⟩ : XFile) :: [⟨"C", some []⟩]) true).diags :=
  merge_skips_failed_file [] [⟨"C", some []⟩] ⟨"B", none⟩ true rfl
